import Mathlib

/-!
Verification development for the Metal read-matching core
(src/ReadQueue.h and src/RefGenome.h).

The data model and the operations of the matching engine are embedded
shallowly: the C++ functions of ReadQueue.h (filterHeuSeeds, bitMatching,
bitMatchingRev) are translated into executable Lean definitions over lists,
with machine integers rendered as Nat (the 64-bit shift register is kept
below 2 ^ (2 * KMERLEN) by the explicit signiBits mask, exactly as the
source masks it) and the 32-bit unsigned cutoff arithmetic rendered with an
explicit modulus.  Collaborator code that is not part of the two source
files (the nucleotide codec BitFun, the packed-genome container DnaBitStr,
the k-mer encoding structs.h, the configuration constants CONST.h, and the
bodies of matchReads, generateMetaCpGs and save/load which live in the
missing .cpp files) is modelled from the specification; every such
definition carries a doc comment saying so.
-/

namespace Metal

/-- Nucleotide alphabet of a read.  Modelled from the spec: reads expose a
base sequence; N is the unknown base, discarded (encoded as 00) for all
computations per the encoding table in src/RefGenome.h lines 154-160. -/
inductive Base where
  | A : Base
  | C : Base
  | G : Base
  | T : Base
  | N : Base
deriving DecidableEq

/-- CpG site: chromosome id and position, as struct CpG of the reference
genome (src/RefGenome.h line 149, documented in structs.h which is not in
the sources; fields modelled from the spec data model). -/
structure CpG where
  chrom : Nat
  pos : Nat
deriving DecidableEq

/-- Meta CpG: stores the index of its first constituent CpG
(src/RefGenome.h line 177; field modelled from the spec data model). -/
structure metaCpG where
  start : Nat
deriving DecidableEq

namespace KMER

/-- Modelled from the spec: the k-mer encoding is a fixed-width packed value
carrying the meta-CpG index, the offset within the meta-CpG window and the
start flag (structs.h is not in the sources; the accessors below are the
ones ReadQueue.h uses).  The strand flag travels in the parallel strand
list, as in the hash index. -/
structure kmer where
  metaCpG : Nat
  offset : Nat
  startFlag : Bool
deriving DecidableEq

/-- Accessor KMER::getMetaCpG. -/
def getMetaCpG (k : kmer) : Nat := k.metaCpG

/-- Accessor KMER::getOffset. -/
def getOffset (k : kmer) : Nat := k.offset

/-- Accessor KMER::isStartCpG. -/
def isStartCpG (k : kmer) : Bool := k.startFlag

end KMER

/-- Read record: base sequence (src/Read.h is not in the sources; modelled
from the spec: a read exposes at minimum its base sequence). -/
structure Read where
  seq : List Base
deriving DecidableEq

/-- Reference genome index state, with the fields of class RefGenome
(src/RefGenome.h lines 148-192).  Each chromosome of genomeBit is the
DnaBitStr 2-bit code sequence (A 00, C 01, T 11, G 10); the filtered-kmer
set is carried as the list of its elements and chrMap as an association
list of chromosome id and name codes. -/
structure RefGenome where
  cpgTable : List CpG
  cpgStartTable : List CpG
  genomeBit : List (List Nat)
  tabIndex : List Nat
  kmerTable : List KMER.kmer
  kmerTableSmall : List KMER.kmer
  strandTable : List Bool
  metaCpGs : List metaCpG
  metaStartCpGs : List metaCpG
  filteredKmers : List Nat
  chrMap : List (Nat × List Nat)
deriving DecidableEq

/-- Modelled from the spec: the fixed configuration constants of CONST.h
(not in the sources) consumed by the core: k-mer length, per-k-mer mismatch
allowance, read length. -/
structure MyConst where
  KMERLEN : Nat
  MISCOUNT : Nat
  READLEN : Nat
deriving DecidableEq

namespace BitFun

/-- Modelled from the spec and the encoding table of src/RefGenome.h lines
154-160: 2-bit code of a base, A 00, C 01, T 11, G 10, N discarded as 00
(BitFun is collaborator code not in the sources). -/
def getBitRepr : Base → Nat
  | Base.A => 0
  | Base.C => 1
  | Base.G => 2
  | Base.T => 3
  | Base.N => 0

/-- Watson-Crick complement of a base (N stays N). -/
def complBase : Base → Base
  | Base.A => Base.T
  | Base.C => Base.G
  | Base.G => Base.C
  | Base.T => Base.A
  | Base.N => Base.N

/-- Modelled from the spec: 2-bit code of the complement of a base, used
when building the reverse-complement shift register. -/
def getBitReprRev (b : Base) : Nat := getBitRepr (complBase b)

end BitFun

/-- Packing of a list of 2-bit codes into one machine word, most
significant base first: the shift-and-or loop the source uses to build all
k-mer bit representations. -/
def packCodes (cs : List Nat) : Nat :=
  cs.foldl (fun a c => (a <<< 2) ||| c) 0

/-- Mask for the significant 2 * KMERLEN bits of the shift register,
constexpr signiBits of src/ReadQueue.h lines 125 and 223. -/
def signiBits (cfg : MyConst) : Nat := 2 ^ (2 * cfg.KMERLEN) - 1

/-- Modelled from the spec: DnaBitStr::getSeqKmer, the packed-genome
primitive returning the 2-bit encoding of the KMERLEN bases starting at
pos on the forward strand (DnaBitStr.h is not in the sources). -/
def getSeqKmer (cfg : MyConst) (chrom : List Nat) (pos : Nat) : Nat :=
  packCodes ((chrom.drop pos).take cfg.KMERLEN)

/-- Modelled from the spec: DnaBitStr::getSeqKmerRev, the reverse-complement
encoding of the KMERLEN bases starting at pos (complement of a 2-bit code
c is 3 - c, read in reverse order). -/
def getSeqKmerRev (cfg : MyConst) (chrom : List Nat) (pos : Nat) : Nat :=
  packCodes ((((chrom.drop pos).take cfg.KMERLEN).reverse).map (fun c => 3 - c))

/-- Modelled from the spec: BitFun::getMask produces the comparison mask for
the reference k-mer bits.  All fetches of this development are full
in-range k-mers, for which the mask is the full 2 * KMERLEN-bit mask; the
boundary partial-k-mer case the spec mentions does not arise here. -/
def getMask (cfg : MyConst) (refKmerBit : Nat) : Nat :=
  let _ := refKmerBit
  signiBits cfg

/-- Decode the chromosome and position of a seed, as done in
src/ReadQueue.h lines 163-181 (and 262-281): a start k-mer resolves through
metaStartCpGs and cpgStartTable with position 0, an ordinary k-mer through
metaCpGs and cpgTable. -/
def refChromPos (ref : RefGenome) (s : KMER.kmer) : Nat × Nat :=
  if KMER.isStartCpG s then
    let cpgInd := (ref.metaStartCpGs.getD (KMER.getMetaCpG s) ⟨0⟩).start
    ((ref.cpgStartTable.getD cpgInd ⟨0, 0⟩).chrom, 0)
  else
    let cpgInd := (ref.metaCpGs.getD (KMER.getMetaCpG s) ⟨0⟩).start
    let c := ref.cpgTable.getD cpgInd ⟨0, 0⟩
    (c.chrom, c.pos)

/-- Reference k-mer bits of a seed in the orientation of its strand flag:
src/ReadQueue.h lines 183-197 (and 283-297). -/
def refKmerBitOf (cfg : MyConst) (ref : RefGenome) (s : KMER.kmer) (strand : Bool) : Nat :=
  let cp := refChromPos ref s
  if strand then
    getSeqKmer cfg (ref.genomeBit.getD cp.1 []) (cp.2 + KMER.getOffset s)
  else
    getSeqKmerRev cfg (ref.genomeBit.getD cp.1 []) (cp.2 + KMER.getOffset s)

/-- Comparison of one seed against the current read k-mer bits: the masked
XOR of src/ReadQueue.h lines 199-207 (and 299-307); the seed survives iff
the XOR is zero. -/
def seedPass (cfg : MyConst) (ref : RefGenome) (kmerBits : Nat)
    (p : KMER.kmer × Bool) : Bool :=
  refKmerBitOf cfg ref p.1 p.2 ^^^
    (kmerBits &&& getMask cfg (refKmerBitOf cfg ref p.1 p.2)) == 0

/-- Filtering of one per-offset seed list by the masked-XOR comparison,
the inner loop of src/ReadQueue.h lines 157-208 (and 257-308). -/
def filterOffset (cfg : MyConst) (ref : RefGenome) (kmerBits : Nat)
    (lK : List KMER.kmer) (lS : List Bool) : List KMER.kmer × List Bool :=
  let ps := (lK.zip lS).filter (seedPass cfg ref kmerBits)
  (ps.map Prod.fst, ps.map Prod.snd)

/-- Shift register after the init loop of bitMatching (src/ReadQueue.h
lines 129-135): codes of the first KMERLEN - 1 read bases. -/
def kmerInitFwd (cfg : MyConst) (s : List Base) : Nat :=
  (s.take (cfg.KMERLEN - 1)).foldl
    (fun a b => (a <<< 2) ||| BitFun.getBitRepr b) 0

/-- Shift register of bitMatching after processing offset t
(src/ReadQueue.h lines 152-154): shift in the code of base t + KMERLEN - 1
and mask to the significant bits. -/
def kmerBitsFwd (cfg : MyConst) (s : List Base) : Nat → Nat
  | 0 =>
    ((kmerInitFwd cfg s <<< 2) |||
      BitFun.getBitRepr (s.getD (cfg.KMERLEN - 1) Base.N)) &&& signiBits cfg
  | t + 1 =>
    ((kmerBitsFwd cfg s t <<< 2) |||
      BitFun.getBitRepr (s.getD (t + cfg.KMERLEN) Base.N)) &&& signiBits cfg

/-- bitMatching of src/ReadQueue.h lines 121-217: for each offset of the
read below r.seq.size() - KMERLEN + 1, filter the per-offset seed lists by
the masked-XOR comparison against the current shift register; the fresh
result lists are sized like seedsK, so indices the loop does not reach stay
empty. -/
def bitMatching (cfg : MyConst) (ref : RefGenome) (r : Read)
    (seedsK : List (List KMER.kmer)) (seedsS : List (List Bool)) :
    List (List KMER.kmer) × List (List Bool) :=
  let n := r.seq.length - cfg.KMERLEN + 1
  (((List.range seedsK.length).map fun t =>
      if t < n then
        (filterOffset cfg ref (kmerBitsFwd cfg r.seq t)
          (seedsK.getD t []) (seedsS.getD t [])).1
      else []),
   ((List.range seedsK.length).map fun t =>
      if t < n then
        (filterOffset cfg ref (kmerBitsFwd cfg r.seq t)
          (seedsK.getD t []) (seedsS.getD t [])).2
      else []))

/-- Shift register after the init loop of bitMatchingRev (src/ReadQueue.h
lines 228-234): reverse-complement codes of the last KMERLEN - 1 read
bases, read from the right. -/
def kmerInitRev (cfg : MyConst) (s : List Base) : Nat :=
  ((s.drop (s.length - cfg.KMERLEN + 1)).reverse).foldl
    (fun a b => (a <<< 2) ||| BitFun.getBitReprRev b) 0

/-- Shift register of bitMatchingRev after the update of iteration kmerInd
(src/ReadQueue.h lines 252-254): at kmerInd t the loop variable offset is
readSize - KMERLEN - t and the code of base offset - 1 is shifted in. -/
def kmerBitsRev (cfg : MyConst) (s : List Base) : Nat → Nat
  | 0 =>
    ((kmerInitRev cfg s <<< 2) |||
      BitFun.getBitReprRev
        (s.getD (s.length - cfg.KMERLEN - 1) Base.N)) &&& signiBits cfg
  | t + 1 =>
    ((kmerBitsRev cfg s t <<< 2) |||
      BitFun.getBitReprRev
        (s.getD (s.length - cfg.KMERLEN - t - 2) Base.N)) &&& signiBits cfg

/-- bitMatchingRev of src/ReadQueue.h lines 218-316: the loop runs the
variable offset from readSize - KMERLEN down to 1, so it performs
readSize - KMERLEN iterations, kmerInd counting up from 0; per-offset seed
lists beyond the last kmerInd reached (in particular index
readSize - KMERLEN itself) are replaced by fresh empty lists. -/
def bitMatchingRev (cfg : MyConst) (ref : RefGenome) (r : Read)
    (seedsK : List (List KMER.kmer)) (seedsS : List (List Bool)) :
    List (List KMER.kmer) × List (List Bool) :=
  let n := r.seq.length - cfg.KMERLEN
  (((List.range seedsK.length).map fun t =>
      if t < n then
        (filterOffset cfg ref (kmerBitsRev cfg r.seq t)
          (seedsK.getD t []) (seedsS.getD t [])).1
      else []),
   ((List.range seedsK.length).map fun t =>
      if t < n then
        (filterOffset cfg ref (kmerBitsRev cfg r.seq t)
          (seedsK.getD t []) (seedsS.getD t [])).2
      else []))

/-- Modelled std::vector::assign of src/ReadQueue.h line 50: the previous
contents of the per-thread counter are discarded and replaced by n zeroes. -/
def assignVec (old : List Nat) (n : Nat) (v : Nat) : List Nat :=
  let _ := old
  List.replicate n v

/-- One step of the counting loop of filterHeuSeeds (src/ReadQueue.h lines
60-72): skip the seed if its meta id equals the last visited one, else
record it as last visited and increment its counter bucket. -/
def countStep (p : List Nat × Option Nat) (s : KMER.kmer) : List Nat × Option Nat :=
  let m := KMER.getMetaCpG s
  if p.2 = some m then p
  else (p.1.set m (p.1.getD m 0 + 1), some m)

/-- Counting inner loop of filterHeuSeeds (src/ReadQueue.h lines 53-73) for
one per-offset seed list: walk the list carrying the last visited meta-CpG
id (the 0xff...ff sentinel is modelled as none, which no meta id equals). -/
def countMetas (threadCount : List Nat) (l : List KMER.kmer) : List Nat :=
  (l.foldl countStep (threadCount, none)).1

/-- Cutoff of src/ReadQueue.h line 76, computed in 32-bit unsigned
arithmetic: readSize - KMERLEN + 1 - KMERLEN * MISCOUNT modulo 2^32. -/
def countCut (cfg : MyConst) (readSize : Nat) : Nat :=
  (((readSize : Int) - cfg.KMERLEN + 1 - cfg.KMERLEN * cfg.MISCOUNT) % (2 ^ 32 : Int)).toNat

/-- Counting phase of filterHeuSeeds (src/ReadQueue.h lines 48-73): the
per-thread counter is assign-ed to zeroes sized to metaCpGs and filled by
the counting loop over every per-offset seed list. -/
def threadCountOf (ref : RefGenome) (scratch : List Nat)
    (seedsK : List (List KMER.kmer)) : List Nat :=
  seedsK.foldl countMetas (assignVec scratch ref.metaCpGs.length 0)

/-- filterHeuSeeds of src/ReadQueue.h lines 45-106, with the per-thread
scratch counter passed explicitly: every per-offset seed list is rebuilt
keeping exactly the seeds whose meta-CpG counter bucket reaches the
cutoff. -/
def filterHeuSeedsScratch (cfg : MyConst) (ref : RefGenome) (scratch : List Nat)
    (seedsK : List (List KMER.kmer)) (seedsS : List (List Bool))
    (readSize : Nat) : List (List KMER.kmer) × List (List Bool) :=
  (((seedsK.zip seedsS).map fun pl =>
      ((pl.1.zip pl.2).filter
        (fun p => countCut cfg readSize ≤
          (threadCountOf ref scratch seedsK).getD (KMER.getMetaCpG p.1) 0)).map
        Prod.fst),
   ((seedsK.zip seedsS).map fun pl =>
      ((pl.1.zip pl.2).filter
        (fun p => countCut cfg readSize ≤
          (threadCountOf ref scratch seedsK).getD (KMER.getMetaCpG p.1) 0)).map
        Prod.snd))

/-- filterHeuSeeds with an empty initial scratch counter. -/
def filterHeuSeeds (cfg : MyConst) (ref : RefGenome)
    (seedsK : List (List KMER.kmer)) (seedsS : List (List Bool))
    (readSize : Nat) : List (List KMER.kmer) × List (List Bool) :=
  filterHeuSeedsScratch cfg ref [] seedsK seedsS readSize

/-- Bounds-checked variant of filterHeuSeeds: the C++ counter accesses
threadCount[KMER::getMetaCpG(...)] at lines 71 and 92 of src/ReadQueue.h
index a vector of size metaCpGs.size(); line 92 touches every seed of the
lists, so the accesses are in bounds exactly when every seed's meta id is
below that size, and this variant returns none as soon as one is not. -/
def filterHeuSeedsChecked (cfg : MyConst) (ref : RefGenome)
    (seedsK : List (List KMER.kmer)) (seedsS : List (List Bool))
    (readSize : Nat) : Option (List (List KMER.kmer) × List (List Bool)) :=
  if ∀ l ∈ seedsK, ∀ s ∈ l, KMER.getMetaCpG s < ref.metaCpGs.length then
    some (filterHeuSeeds cfg ref seedsK seedsS readSize)
  else none

/-- Modelled from the spec: the reduced-alphabet code collapses C onto T
(bisulfite conversion) before hashing. -/
def reducedCode (b : Base) : Nat :=
  if b = Base.C then BitFun.getBitRepr Base.T else BitFun.getBitRepr b

/-- Modelled from the spec: reduced-alphabet hash of one k-mer window into
the hash space of tabIndex (whose length is hash-space size + 1). -/
def hashKmer (ref : RefGenome) (w : List Base) : Nat :=
  packCodes (w.map reducedCode) % (ref.tabIndex.length - 1)

/-- Slice of a grouped table between two bucket bounds. -/
def sliceTab {α : Type} (l : List α) (a b : Nat) : List α :=
  (l.take b).drop a

/-- Modelled from the spec: seeding of one orientation of a read.  For each
of the length - KMERLEN + 1 k-mer windows, hash the window in the reduced
alphabet and take the bucket slice kmerTable[tabIndex[h] .. tabIndex[h+1])
together with the same slice of strandTable as the per-offset candidate
lists (the body of getSeeds lives in the missing ReadQueue.cpp). -/
def getSeeds (cfg : MyConst) (ref : RefGenome) (s : List Base) :
    List (List KMER.kmer) × List (List Bool) :=
  let n := s.length - cfg.KMERLEN + 1
  (((List.range n).map fun t =>
      let h := hashKmer ref ((s.drop t).take cfg.KMERLEN)
      sliceTab ref.kmerTable (ref.tabIndex.getD h 0) (ref.tabIndex.getD (h + 1) 0)),
   ((List.range n).map fun t =>
      let h := hashKmer ref ((s.drop t).take cfg.KMERLEN)
      sliceTab ref.strandTable (ref.tabIndex.getD h 0) (ref.tabIndex.getD (h + 1) 0)))

/-- Reverse complement of a base sequence. -/
def revCompSeq (s : List Base) : List Base :=
  (s.reverse).map BitFun.complBase

/-- Result of matching one read: the filtered per-offset seed lists of the
forward orientation and of the reverse-complement orientation. -/
abbrev SeedCol : Type := List (List KMER.kmer) × List (List Bool)

/-- Modelled from the spec: the per-read pipeline of matchReads (body in
the missing ReadQueue.cpp): a read shorter than the k-mer length is the
degenerate case yielding empty seed-list collections for both orientations;
otherwise seeds are derived for both orientations, heuristically pruned and
bit-verified (bitMatching for the given orientation, bitMatchingRev for the
reverse complement). -/
def matchRead (cfg : MyConst) (ref : RefGenome) (r : Read) : SeedCol × SeedCol :=
  if r.seq.length < cfg.KMERLEN then (([], []), ([], []))
  else
    let fwd := getSeeds cfg ref r.seq
    let fwd2 := filterHeuSeeds cfg ref fwd.1 fwd.2 r.seq.length
    let fwd3 := bitMatching cfg ref r fwd2.1 fwd2.2
    let rev := getSeeds cfg ref (revCompSeq r.seq)
    let rev2 := filterHeuSeeds cfg ref rev.1 rev.2 r.seq.length
    let rev3 := bitMatchingRev cfg ref r rev2.1 rev2.2
    (fwd3, rev3)

/-- Modelled from the spec: matchReads processes each read of the batch
independently through the per-read pipeline. -/
def matchReads (cfg : MyConst) (ref : RefGenome) (buffer : List Read) :
    List (SeedCol × SeedCol) :=
  buffer.map (matchRead cfg ref)

/-- Mutable state visible to the matching phase: the shared reference index
and the per-read results produced so far. -/
structure MatchState where
  ref : RefGenome
  results : List (SeedCol × SeedCol)

/-- One read processed against the state: the pipeline reads the index and
appends the read's result; every stage takes the index by reference and
performs no write to it (src/ReadQueue.h lines 45-316 contain no assignment
to any member of ref). -/
def matchReadSt (cfg : MyConst) (r : Read) (st : MatchState) : MatchState :=
  { ref := st.ref, results := st.results ++ [matchRead cfg st.ref r] }

/-- A whole batch processed against the state. -/
def matchReadsSt (cfg : MyConst) (buffer : List Read) (st : MatchState) :
    MatchState :=
  buffer.foldl (fun s r => matchReadSt cfg r s) st

/-- Modelled from the spec: the grouping scan of generateMetaCpGs (body in
the missing RefGenome.cpp): walk the CpG table in position order and give
each CpG a meta-CpG id; a CpG joins the meta-CpG of its predecessor iff it
lies on the same chromosome within one read length of it, else a new
meta-CpG starts. -/
def metaIdsAux (rl : Nat) (prev : CpG) (g : Nat) : List CpG → List Nat
  | [] => []
  | c :: rest =>
    if c.chrom = prev.chrom ∧ c.pos - prev.pos ≤ rl then
      g :: metaIdsAux rl c g rest
    else (g + 1) :: metaIdsAux rl c (g + 1) rest

/-- Meta-CpG id of every CpG of the table, in table order. -/
def metaGroupIds (rl : Nat) : List CpG → List Nat
  | [] => []
  | c :: rest => 0 :: metaIdsAux rl c 0 rest

/-- Modelled from the spec: generateMetaCpGs materialises one metaCpG
record per group, storing the index of the group's first CpG. -/
def generateMetaCpGs (rl : Nat) (ct : List CpG) : List metaCpG :=
  let ids := metaGroupIds rl ct
  ((List.range ct.length).filter
    (fun i => i = 0 ∨ ids.getD i 0 ≠ ids.getD (i - 1) 0)).map (fun i => ⟨i⟩)

/-- Token-stream encoder of a Nat list: length prefix then the elements
(modelling the length-prefixed binary blocks of the save format). -/
def encNats (l : List Nat) : List Nat := l.length :: l

/-- Decoder matching encNats; fails on a truncated stream. -/
def decNats (s : List Nat) : Option (List Nat × List Nat) :=
  match s with
  | [] => none
  | n :: rest => if n ≤ rest.length then some (rest.take n, rest.drop n) else none

/-- Encoder of a CpG table: count then chrom and pos of each row. -/
def encCpGs (l : List CpG) : List Nat :=
  l.length :: l.flatMap (fun c => [c.chrom, c.pos])

/-- Decoder of n CpG rows. -/
def decCpGsAux : Nat → List Nat → Option (List CpG × List Nat)
  | 0, s => some ([], s)
  | n + 1, a :: b :: s =>
    (decCpGsAux n s).map (fun p => (⟨a, b⟩ :: p.1, p.2))
  | _ + 1, _ => none

/-- Decoder matching encCpGs. -/
def decCpGs (s : List Nat) : Option (List CpG × List Nat) :=
  match s with
  | [] => none
  | n :: rest => decCpGsAux n rest

/-- Encoder of a meta-CpG table: count then the start index of each row. -/
def encMetas (l : List metaCpG) : List Nat :=
  encNats (l.map (fun m => m.start))

/-- Decoder matching encMetas. -/
def decMetas (s : List Nat) : Option (List metaCpG × List Nat) :=
  (decNats s).map (fun p => (p.1.map (fun n => ⟨n⟩), p.2))

/-- Encoder of a k-mer table: count then meta id, offset and start flag of
each entry. -/
def encKmers (l : List KMER.kmer) : List Nat :=
  l.length :: l.flatMap (fun k => [k.metaCpG, k.offset, if k.startFlag then 1 else 0])

/-- Decoder of n k-mer entries. -/
def decKmersAux : Nat → List Nat → Option (List KMER.kmer × List Nat)
  | 0, s => some ([], s)
  | n + 1, a :: b :: c :: s =>
    (decKmersAux n s).map (fun p => (⟨a, b, c = 1⟩ :: p.1, p.2))
  | _ + 1, _ => none

/-- Decoder matching encKmers. -/
def decKmers (s : List Nat) : Option (List KMER.kmer × List Nat) :=
  match s with
  | [] => none
  | n :: rest => decKmersAux n rest

/-- Encoder of the strand table: count then one bit per entry. -/
def encBools (l : List Bool) : List Nat :=
  encNats (l.map (fun b => if b then 1 else 0))

/-- Decoder matching encBools. -/
def decBools (s : List Nat) : Option (List Bool × List Nat) :=
  (decNats s).map (fun p => (p.1.map (fun n => n = 1), p.2))

/-- Encoder of the packed genome: chromosome count then each chromosome's
code sequence as a length-prefixed block. -/
def encNested (l : List (List Nat)) : List Nat :=
  l.length :: l.flatMap encNats

/-- Decoder of n length-prefixed blocks. -/
def decNestedAux : Nat → List Nat → Option (List (List Nat) × List Nat)
  | 0, s => some ([], s)
  | n + 1, s =>
    match decNats s with
    | none => none
    | some (x, s2) => (decNestedAux n s2).map (fun p => (x :: p.1, p.2))

/-- Decoder matching encNested. -/
def decNested (s : List Nat) : Option (List (List Nat) × List Nat) :=
  match s with
  | [] => none
  | n :: rest => decNestedAux n rest

/-- Encoder of the chromosome-id map: entry count, then id and
length-prefixed name codes per entry. -/
def encChrMap (l : List (Nat × List Nat)) : List Nat :=
  l.length :: l.flatMap (fun p => p.1 :: encNats p.2)

/-- Decoder of n chromosome-id map entries. -/
def decChrMapAux : Nat → List Nat → Option (List (Nat × List Nat) × List Nat)
  | 0, s => some ([], s)
  | n + 1, a :: s =>
    match decNats s with
    | none => none
    | some (x, s2) => (decChrMapAux n s2).map (fun p => ((a, x) :: p.1, p.2))
  | _ + 1, [] => none

/-- Decoder matching encChrMap. -/
def decChrMap (s : List Nat) : Option (List (Nat × List Nat) × List Nat) :=
  match s with
  | [] => none
  | n :: rest => decChrMapAux n rest

/-- Modelled from the spec: RefGenome::save serialises, in order, the CpG
table, the start-CpG table, the meta-CpG tables, the packed genome per
chromosome, tabIndex, kmerTable and its narrow start variant, strandTable,
the filtered-kmer set and the chromosome-id map (the body lives in the
missing RefGenome.cpp; the binary file is modelled as a token stream). -/
def save (g : RefGenome) : List Nat :=
  encCpGs g.cpgTable ++ encCpGs g.cpgStartTable ++
  encMetas g.metaCpGs ++ encMetas g.metaStartCpGs ++
  encNested g.genomeBit ++ encNats g.tabIndex ++
  encKmers g.kmerTable ++ encKmers g.kmerTableSmall ++
  encBools g.strandTable ++ encNats g.filteredKmers ++
  encChrMap g.chrMap

/-- Modelled from the spec: RefGenome::load parses the stream back in the
same order, failing (none) on a truncated or ill-formed stream instead of
producing a partial index. -/
def load (s : List Nat) : Option RefGenome :=
  match decCpGs s with
  | none => none
  | some (cpgT, s1) =>
  match decCpGs s1 with
  | none => none
  | some (cpgST, s2) =>
  match decMetas s2 with
  | none => none
  | some (mC, s3) =>
  match decMetas s3 with
  | none => none
  | some (mSC, s4) =>
  match decNested s4 with
  | none => none
  | some (gB, s5) =>
  match decNats s5 with
  | none => none
  | some (tI, s6) =>
  match decKmers s6 with
  | none => none
  | some (kT, s7) =>
  match decKmers s7 with
  | none => none
  | some (kTS, s8) =>
  match decBools s8 with
  | none => none
  | some (sT, s9) =>
  match decNats s9 with
  | none => none
  | some (fK, s10) =>
  match decChrMap s10 with
  | none => none
  | some (cM, _) =>
    some ⟨cpgT, cpgST, gB, tI, kT, kTS, sT, mC, mSC, fK, cM⟩

/-- Spec-side definition: the 2-bit codes of the read's k-mer window at a
given offset, written positionally (used to compare the incremental shift
register against a from-scratch recomputation). -/
def readWindowCodes (cfg : MyConst) (s : List Base) (t : Nat) : List Nat :=
  (List.range cfg.KMERLEN).map (fun j => BitFun.getBitRepr (s.getD (t + j) Base.N))

/-- Spec-side definition: the read's 2-bit-packed k-mer at an offset,
recomputed from scratch. -/
def readKmerAt (cfg : MyConst) (s : List Base) (t : Nat) : Nat :=
  packCodes (readWindowCodes cfg s t)

/-- Spec-side definition: the reverse-complement 2-bit codes of the read's
k-mer window scanned by bitMatchingRev at iteration kmerInd, whose loop
offset is length - KMERLEN - kmerInd: the window's bases read from the
right, complemented. -/
def specRevWindowCodes (cfg : MyConst) (s : List Base) (kmerInd : Nat) : List Nat :=
  (List.range cfg.KMERLEN).map
    (fun j => BitFun.getBitReprRev
      (s.getD (s.length - 1 - kmerInd - j) Base.N))

/-- Spec-side definition: the reverse-complement bit encoding of the
read's k-mer window at iteration kmerInd of the right-to-left scan,
recomputed from scratch. -/
def specRevKmerAt (cfg : MyConst) (s : List Base) (kmerInd : Nat) : Nat :=
  packCodes (specRevWindowCodes cfg s kmerInd)

/-- Spec-side definition: number of positions of a meta-id list that start
a maximal run of the id m, each position paired with its predecessor
(last at the head): a run starts where the element is m and the
predecessor is not. -/
def runStartFrom (m : Nat) (last : Option Nat) (ms : List Nat) : Nat :=
  ((ms.zip (last :: ms.map some)).filter
    (fun p => p.1 = m ∧ p.2 ≠ some m)).length

/-- Spec-side definition: number of maximal runs of consecutive seeds of
meta-CpG m in one per-offset list of meta ids (no predecessor before the
head). -/
def runStartCount (m : Nat) (ms : List Nat) : Nat :=
  runStartFrom m none ms

/-- Spec-side definition: the tally the counting loop of filterHeuSeeds
computes for meta-CpG m: the total number of maximal runs of m-seeds over
all per-offset lists. -/
def specRunTally (seedsK : List (List KMER.kmer)) (m : Nat) : Nat :=
  (seedsK.map (fun l => runStartCount m (l.map KMER.getMetaCpG))).sum

/-- Claim-side definition, following the spec's words: the number of
distinct k-mer offsets that produced at least one seed referencing
meta-CpG m. -/
def specDistinctOffsetTally (seedsK : List (List KMER.kmer)) (m : Nat) : Nat :=
  (seedsK.filter (fun l => l.any (fun s => KMER.getMetaCpG s == m))).length

/-- Spec-side definition: heuristic pruning written against the run tally
and the plain (wrap-free) cutoff readSize + 1 - KMERLEN - KMERLEN *
MISCOUNT. -/
def specFilterHeu (cfg : MyConst) (seedsK : List (List KMER.kmer))
    (seedsS : List (List Bool)) (readSize : Nat) :
    List (List KMER.kmer) × List (List Bool) :=
  (((seedsK.zip seedsS).map fun pl =>
      ((pl.1.zip pl.2).filter
        (fun p => readSize + 1 - cfg.KMERLEN - cfg.KMERLEN * cfg.MISCOUNT ≤
          specRunTally seedsK (KMER.getMetaCpG p.1))).map Prod.fst),
   ((seedsK.zip seedsS).map fun pl =>
      ((pl.1.zip pl.2).filter
        (fun p => readSize + 1 - cfg.KMERLEN - cfg.KMERLEN * cfg.MISCOUNT ≤
          specRunTally seedsK (KMER.getMetaCpG p.1))).map Prod.snd))

/-- Concrete configuration for the concrete evaluations below: k-mer
length 4, mismatch allowance 0, read length 100. -/
def cfgW : MyConst := ⟨4, 0, 100⟩

/-- Concrete read ACGTAC. -/
def rW : Read := ⟨[Base.A, Base.C, Base.G, Base.T, Base.A, Base.C]⟩

/-- Concrete read AC, shorter than the k-mer length. -/
def rShort : Read := ⟨[Base.A, Base.C]⟩

/-- Empty reference index. -/
def refEmpty : RefGenome := ⟨[], [], [], [], [], [], [], [], [], [], []⟩

/-- Reference with one ordinary meta-CpG at chromosome 0 position 0 and the
packed chromosome G T A G (codes 2 3 0 2). -/
def refC1 : RefGenome :=
  ⟨[⟨0, 0⟩], [], [[2, 3, 0, 2]], [], [], [], [], [⟨0⟩], [], [], []⟩

/-- Reference with two ordinary meta-CpGs. -/
def refC2 : RefGenome :=
  ⟨[⟨0, 0⟩, ⟨0, 0⟩], [], [], [], [], [], [], [⟨0⟩, ⟨1⟩], [], [], []⟩

/-- Reference with no ordinary meta-CpG but one start meta-CpG. -/
def refC9 : RefGenome :=
  ⟨[], [⟨0, 0⟩], [], [], [], [], [], [], [⟨0⟩], [], []⟩

/-- Ordinary seed of meta-CpG 0 at offset 0. -/
def kapA : KMER.kmer := ⟨0, 0, false⟩

/-- Ordinary seed of meta-CpG 1 at offset 0. -/
def kapB : KMER.kmer := ⟨1, 0, false⟩

/-- Start-flagged seed of start meta-CpG 0. -/
def sigma9 : KMER.kmer := ⟨0, 0, true⟩

/-- CpG table with positions 0, 100, 200 on one chromosome. -/
def ct7 : List CpG := [⟨0, 0⟩, ⟨0, 100⟩, ⟨0, 200⟩]

/-! Arithmetic facts about the shift-and-or packing. -/

/-- Shifting a word left by one base and or-ing in a fresh 2-bit code is
plain positional arithmetic. -/
theorem shiftOr4 (a c : Nat) (h : c < 4) : (a <<< 2) ||| c = 4 * a + c := by
  apply Nat.eq_of_testBit_eq
  intro i
  rw [Nat.testBit_or, Nat.testBit_shiftLeft]
  match i with
  | 0 =>
    have h0 : (4 * a + c) % 2 = c % 2 := by omega
    simp [Nat.testBit_to_div_mod, h0]
  | 1 =>
    have h1 : (4 * a + c) / 2 % 2 = c / 2 % 2 := by omega
    simp [Nat.testBit_to_div_mod, h1]
  | j + 2 =>
    have hc : c.testBit (j + 2) = false :=
      Nat.testBit_lt_two_pow (lt_of_lt_of_le h (by
        have : (4 : Nat) = 2 ^ 2 := rfl
        rw [this]
        exact Nat.pow_le_pow_right (by omega) (by omega)))
    have hdiv : (4 * a + c) / 2 ^ (j + 2) = a / 2 ^ j := by
      have hp : (2 : Nat) ^ (j + 2) = 4 * 2 ^ j := by ring
      have h4 : (4 * a + c) / 4 = a := by omega
      rw [hp, ← Nat.div_div_eq_div_mul, h4]
    simp [hc, Nat.testBit_to_div_mod, hdiv]

/-- Every 2-bit base code is below 4. -/
theorem getBitRepr_lt (b : Base) : BitFun.getBitRepr b < 4 := by
  cases b <;> decide

/-- Every reverse-complement 2-bit base code is below 4. -/
theorem getBitReprRev_lt (b : Base) : BitFun.getBitReprRev b < 4 := by
  cases b <;> decide

/-- Folding the shift-and-or step from an arbitrary accumulator is
positional base-4 arithmetic. -/
theorem packFold_eq (cs : List Nat) (hc : ∀ c ∈ cs, c < 4) :
    ∀ a : Nat, cs.foldl (fun x c => (x <<< 2) ||| c) a
      = a * 4 ^ cs.length + packCodes cs := by
  induction cs with
  | nil => intro a; simp [packCodes]
  | cons c rest ih =>
    intro a
    have hcc : c < 4 := hc c (List.mem_cons_self c rest)
    have hrest : ∀ x ∈ rest, x < 4 := fun x hx => hc x (List.mem_cons_of_mem c hx)
    have h1 : (a <<< 2) ||| c = 4 * a + c := shiftOr4 a c hcc
    have h2 : packCodes (c :: rest) = c * 4 ^ rest.length + packCodes rest := by
      show rest.foldl (fun x d => (x <<< 2) ||| d) ((0 <<< 2) ||| c)
        = c * 4 ^ rest.length + packCodes rest
      rw [shiftOr4 0 c hcc]
      simpa using ih hrest c
    show rest.foldl (fun x d => (x <<< 2) ||| d) ((a <<< 2) ||| c)
      = a * 4 ^ (rest.length + 1) + packCodes (c :: rest)
    rw [h1, ih hrest (4 * a + c), h2]
    ring

/-- Packing a cons splits off the leading digit. -/
theorem packCodes_cons (c : Nat) (cs : List Nat) (hcc : c < 4)
    (hc : ∀ x ∈ cs, x < 4) :
    packCodes (c :: cs) = c * 4 ^ cs.length + packCodes cs := by
  show cs.foldl (fun x d => (x <<< 2) ||| d) ((0 <<< 2) ||| c)
    = c * 4 ^ cs.length + packCodes cs
  rw [shiftOr4 0 c hcc]
  simpa using packFold_eq cs hc c

/-- A packed code list fits in 2 bits per base. -/
theorem packCodes_lt (cs : List Nat) (hc : ∀ c ∈ cs, c < 4) :
    packCodes cs < 4 ^ cs.length := by
  induction cs with
  | nil => simp [packCodes]
  | cons c rest ih =>
    have hcc : c < 4 := hc c (List.mem_cons_self c rest)
    have hrest : ∀ x ∈ rest, x < 4 := fun x hx => hc x (List.mem_cons_of_mem c hx)
    rw [packCodes_cons c rest hcc hrest]
    have h1 : packCodes rest < 4 ^ rest.length := ih hrest
    have h2 : c * 4 ^ rest.length + packCodes rest < (c + 1) * 4 ^ rest.length := by
      have := Nat.pos_pow_of_pos (n := 4) rest.length (by omega)
      nlinarith
    have h3 : (c + 1) * 4 ^ rest.length ≤ 4 ^ (rest.length + 1) := by
      rw [pow_succ]
      have : (c + 1) ≤ 4 := by omega
      nlinarith [Nat.pos_pow_of_pos (n := 4) rest.length (by omega)]
    calc c * 4 ^ rest.length + packCodes rest
        < (c + 1) * 4 ^ rest.length := h2
      _ ≤ 4 ^ (rest.length + 1) := h3

/-- Appending one code is one shift-and-or step. -/
theorem packCodes_concat (cs : List Nat) (c : Nat) :
    packCodes (cs ++ [c]) = (packCodes cs <<< 2) ||| c := by
  simp [packCodes, List.foldl_append]

/-- A prefix of a list written positionally through getD. -/
theorem take_eq_rangeMap {α : Type} (s : List α) (d : α) (n : Nat)
    (h : n ≤ s.length) :
    s.take n = (List.range n).map (fun j => s.getD j d) := by
  apply List.ext_getElem
  · simp [Nat.min_eq_left h]
  · intro i h1 h2
    have hi : i < n := by simpa using h2
    have his : i < s.length := lt_of_lt_of_le hi h
    simp [List.getElem_take, List.getD_eq_getElem?_getD, List.getElem?_eq_getElem his]

/-- All entries of a read window code list are below 4. -/
theorem readWindowCodes_lt (cfg : MyConst) (s : List Base) (t : Nat) :
    ∀ c ∈ readWindowCodes cfg s t, c < 4 := by
  intro c hc
  rcases List.mem_map.mp hc with ⟨j, _, rfl⟩
  exact getBitRepr_lt _

/-- Length of a read window code list. -/
theorem readWindowCodes_length (cfg : MyConst) (s : List Base) (t : Nat) :
    (readWindowCodes cfg s t).length = cfg.KMERLEN := by
  simp [readWindowCodes]

/-- The read's packed window fits in the significant bits. -/
theorem readKmerAt_lt (cfg : MyConst) (s : List Base) (t : Nat) :
    readKmerAt cfg s t < 2 ^ (2 * cfg.KMERLEN) := by
  have h := packCodes_lt (readWindowCodes cfg s t) (readWindowCodes_lt cfg s t)
  rw [readWindowCodes_length] at h
  calc readKmerAt cfg s t < 4 ^ cfg.KMERLEN := h
    _ = 2 ^ (2 * cfg.KMERLEN) := by
        rw [Nat.pow_mul]

/-- The forward init register is the packed code list of the first
KMERLEN - 1 bases. -/
theorem kmerInitFwd_eq (cfg : MyConst) (s : List Base)
    (h : cfg.KMERLEN - 1 ≤ s.length) :
    kmerInitFwd cfg s
      = packCodes ((List.range (cfg.KMERLEN - 1)).map
          (fun j => BitFun.getBitRepr (s.getD j Base.N))) := by
  unfold kmerInitFwd
  rw [take_eq_rangeMap s Base.N (cfg.KMERLEN - 1) h]
  rw [packCodes]
  simp only [List.foldl_map]

/-- The incrementally maintained forward shift register of bitMatching
equals the read's 2-bit-packed k-mer recomputed from scratch at every
offset: the refinement between src/ReadQueue.h lines 127-154 and the
positional window encoding. -/
theorem kmerBitsFwd_eq (cfg : MyConst) (s : List Base) (hk : 1 ≤ cfg.KMERLEN) :
    ∀ t, t + cfg.KMERLEN ≤ s.length →
      kmerBitsFwd cfg s t = readKmerAt cfg s t := by
  intro t
  induction t with
  | zero =>
    intro ht
    have hlt : cfg.KMERLEN - 1 ≤ s.length := by omega
    show ((kmerInitFwd cfg s <<< 2) |||
        BitFun.getBitRepr (s.getD (cfg.KMERLEN - 1) Base.N)) &&& signiBits cfg
      = readKmerAt cfg s 0
    rw [kmerInitFwd_eq cfg s hlt, ← packCodes_concat]
    have hw : (List.range (cfg.KMERLEN - 1)).map
          (fun j => BitFun.getBitRepr (s.getD j Base.N))
          ++ [BitFun.getBitRepr (s.getD (cfg.KMERLEN - 1) Base.N)]
        = readWindowCodes cfg s 0 := by
      obtain ⟨k0, hk0⟩ : ∃ k0, cfg.KMERLEN = k0 + 1 := ⟨cfg.KMERLEN - 1, by omega⟩
      unfold readWindowCodes
      rw [hk0]
      simp [List.range_succ]
    rw [hw]
    unfold signiBits
    rw [Nat.and_pow_two_sub_one_eq_mod]
    exact Nat.mod_eq_of_lt (readKmerAt_lt cfg s 0)
  | succ t ih =>
    intro ht
    have ht' : t + cfg.KMERLEN ≤ s.length := by omega
    show ((kmerBitsFwd cfg s t <<< 2) |||
        BitFun.getBitRepr (s.getD (t + cfg.KMERLEN) Base.N)) &&& signiBits cfg
      = readKmerAt cfg s (t + 1)
    rw [ih ht']
    unfold readKmerAt
    rw [← packCodes_concat]
    have hw : readWindowCodes cfg s t
          ++ [BitFun.getBitRepr (s.getD (t + cfg.KMERLEN) Base.N)]
        = BitFun.getBitRepr (s.getD t Base.N) :: readWindowCodes cfg s (t + 1) := by
      unfold readWindowCodes
      calc ((List.range cfg.KMERLEN).map
            (fun j => BitFun.getBitRepr (s.getD (t + j) Base.N)))
            ++ [BitFun.getBitRepr (s.getD (t + cfg.KMERLEN) Base.N)]
          = (List.range (cfg.KMERLEN + 1)).map
            (fun j => BitFun.getBitRepr (s.getD (t + j) Base.N)) := by
            rw [List.range_succ]
            simp
        _ = BitFun.getBitRepr (s.getD t Base.N) ::
            (List.range cfg.KMERLEN).map
              (fun j => BitFun.getBitRepr (s.getD (t + 1 + j) Base.N)) := by
            rw [List.range_succ_eq_map, List.map_cons, List.map_map]
            refine congrArg₂ _ (by simp) ?_
            apply List.map_congr_left
            intro j _
            have hj : t + Nat.succ j = t + 1 + j := by omega
            simp [Function.comp, hj]
    rw [hw]
    have hc0 : BitFun.getBitRepr (s.getD t Base.N) < 4 := getBitRepr_lt _
    rw [packCodes_cons _ _ hc0 (readWindowCodes_lt cfg s (t + 1)),
      readWindowCodes_length]
    unfold signiBits
    rw [Nat.and_pow_two_sub_one_eq_mod]
    have h4 : (4 : Nat) ^ cfg.KMERLEN = 2 ^ (2 * cfg.KMERLEN) := by
      rw [Nat.pow_mul]
    rw [h4, Nat.mul_comm _ (2 ^ (2 * cfg.KMERLEN)), Nat.mul_add_mod]
    exact Nat.mod_eq_of_lt (readKmerAt_lt cfg s (t + 1))

/-- getD of a map over a range, positionally. -/
theorem getD_map_range {α : Type} (n : Nat) (f : Nat → α) (d : α) (t : Nat) :
    ((List.range n).map f).getD t d = if t < n then f t else d := by
  by_cases h : t < n
  · rw [if_pos h, List.getD_eq_getElem?_getD, List.getElem?_map,
      List.getElem?_range h]
    rfl
  · rw [if_neg h, List.getD_eq_getElem?_getD, List.getElem?_eq_none (by simpa using le_of_not_lt h)]
    rfl

/-- Packing is injective on equal-length lists of 2-bit codes. -/
theorem packCodes_inj : ∀ xs ys : List Nat, (∀ c ∈ xs, c < 4) →
    (∀ c ∈ ys, c < 4) → xs.length = ys.length →
    packCodes xs = packCodes ys → xs = ys := by
  intro xs
  induction xs with
  | nil =>
    intro ys _ _ hlen _
    cases ys with
    | nil => rfl
    | cons y ys2 => simp at hlen
  | cons x xs2 ih =>
    intro ys hx hy hlen hp
    cases ys with
    | nil => simp at hlen
    | cons y ys2 =>
      have hx0 : x < 4 := hx x (List.mem_cons_self x xs2)
      have hy0 : y < 4 := hy y (List.mem_cons_self y ys2)
      have hx2 : ∀ c ∈ xs2, c < 4 := fun c hc => hx c (List.mem_cons_of_mem x hc)
      have hy2 : ∀ c ∈ ys2, c < 4 := fun c hc => hy c (List.mem_cons_of_mem y hc)
      have hlen2 : xs2.length = ys2.length := by simpa using hlen
      rw [packCodes_cons x xs2 hx0 hx2, packCodes_cons y ys2 hy0 hy2, hlen2] at hp
      have hpx : packCodes xs2 < 4 ^ ys2.length := by
        have := packCodes_lt xs2 hx2
        rwa [hlen2] at this
      have hpy : packCodes ys2 < 4 ^ ys2.length := packCodes_lt ys2 hy2
      have hxy : x = y := by
        have h1 : (x * 4 ^ ys2.length + packCodes xs2) / 4 ^ ys2.length = x := by
          rw [Nat.mul_comm, Nat.mul_add_div (Nat.pos_pow_of_pos _ (by omega)),
            Nat.div_eq_of_lt hpx]
          omega
        have h2 : (y * 4 ^ ys2.length + packCodes ys2) / 4 ^ ys2.length = y := by
          rw [Nat.mul_comm, Nat.mul_add_div (Nat.pos_pow_of_pos _ (by omega)),
            Nat.div_eq_of_lt hpy]
          omega
        rw [← h1, ← h2, hp]
      have hps : packCodes xs2 = packCodes ys2 := by
        rw [hxy] at hp
        omega
      rw [hxy, ih ys2 hx2 hy2 hlen2 hps]

/-- Updating one bucket of the counter and reading another. -/
theorem getD_set (l : List Nat) (i j v : Nat) (hi : i < l.length) :
    (l.set i v).getD j 0 = if i = j then v else l.getD j 0 := by
  by_cases h : i = j
  · subst h
    simp [List.getD_eq_getElem?_getD, List.getElem?_set_self hi]
  · simp [List.getD_eq_getElem?_getD, List.getElem?_set_ne h, h]

/-- One counting step does not change the counter's size. -/
theorem countStep_length (p : List Nat × Option Nat) (s : KMER.kmer) :
    ((countStep p s).1).length = p.1.length := by
  unfold countStep
  by_cases h : p.2 = some (KMER.getMetaCpG s) <;> simp [h]

/-- The counting fold does not change the counter's size. -/
theorem countFold_length (l : List KMER.kmer) :
    ∀ p : List Nat × Option Nat, ((l.foldl countStep p).1).length = p.1.length := by
  induction l with
  | nil => intro p; rfl
  | cons s rest ih =>
    intro p
    rw [List.foldl_cons, ih (countStep p s), countStep_length]

/-- Decomposition of the run-start count at a cons. -/
theorem runStartFrom_cons (m : Nat) (last : Option Nat) (v : Nat) (ms : List Nat) :
    runStartFrom m last (v :: ms)
      = (if v = m ∧ last ≠ some m then 1 else 0) + runStartFrom m (some v) ms := by
  unfold runStartFrom
  rw [List.map_cons, List.zip_cons_cons, List.filter_cons]
  by_cases h : v = m ∧ last ≠ some m
  · simp [h]
    omega
  · simp [h]

/-- The counting loop of filterHeuSeeds increments the bucket of meta-CpG m
once per maximal run of consecutive m-seeds: the refinement between the
lastId-skipping fold of src/ReadQueue.h lines 59-72 and the positional
run-start count. -/
theorem countFold_getD (m : Nat) :
    ∀ (l : List KMER.kmer) (cnt : List Nat) (last : Option Nat),
      m < cnt.length → (∀ s ∈ l, KMER.getMetaCpG s < cnt.length) →
      ((l.foldl countStep (cnt, last)).1).getD m 0
        = cnt.getD m 0 + runStartFrom m last (l.map KMER.getMetaCpG) := by
  intro l
  induction l with
  | nil =>
    intro cnt last _ _
    simp [runStartFrom]
  | cons s rest ih =>
    intro cnt last hm hl
    have hs : KMER.getMetaCpG s < cnt.length := hl s (List.mem_cons_self s rest)
    have hrest : ∀ x ∈ rest, KMER.getMetaCpG x < cnt.length :=
      fun x hx => hl x (List.mem_cons_of_mem s hx)
    rw [List.foldl_cons, List.map_cons, runStartFrom_cons]
    by_cases hskip : last = some (KMER.getMetaCpG s)
    · have hstep : countStep (cnt, last) s = (cnt, last) := by
        simp [countStep, hskip]
      rw [hstep, ih cnt last hm hrest]
      have hif : (if KMER.getMetaCpG s = m ∧ last ≠ some m then 1 else 0) = 0 := by
        rw [if_neg]
        intro hand
        exact hand.2 (by rw [hskip, hand.1])
      rw [hif, ← hskip]
      omega
    · have hstep : countStep (cnt, last) s
          = (cnt.set (KMER.getMetaCpG s) (cnt.getD (KMER.getMetaCpG s) 0 + 1),
             some (KMER.getMetaCpG s)) := by
        simp [countStep, hskip]
      have hm2 : m < (cnt.set (KMER.getMetaCpG s)
          (cnt.getD (KMER.getMetaCpG s) 0 + 1)).length := by
        rw [List.length_set]; exact hm
      have hr2 : ∀ x ∈ rest, KMER.getMetaCpG x < (cnt.set (KMER.getMetaCpG s)
          (cnt.getD (KMER.getMetaCpG s) 0 + 1)).length := by
        intro x hx; rw [List.length_set]; exact hrest x hx
      rw [hstep, ih _ (some (KMER.getMetaCpG s)) hm2 hr2,
        getD_set cnt (KMER.getMetaCpG s) m _ hs]
      by_cases hmm : KMER.getMetaCpG s = m
      · have hif : (if KMER.getMetaCpG s = m ∧ last ≠ some m then 1 else 0) = 1 := by
          rw [if_pos]
          refine ⟨hmm, ?_⟩
          intro hc
          exact hskip (by rw [hc, hmm])
        rw [hif, if_pos hmm, hmm]
        omega
      · rw [if_neg hmm, if_neg (fun hand => hmm hand.1)]
        omega

/-- The whole counting phase of filterHeuSeeds computes, per meta-CpG, the
total number of maximal runs of that meta-CpG over the per-offset seed
lists. -/
theorem tallyFold_getD (m : Nat) :
    ∀ (ls : List (List KMER.kmer)) (cnt : List Nat),
      m < cnt.length → (∀ l ∈ ls, ∀ s ∈ l, KMER.getMetaCpG s < cnt.length) →
      (ls.foldl countMetas cnt).getD m 0 = cnt.getD m 0 + specRunTally ls m := by
  intro ls
  induction ls with
  | nil =>
    intro cnt _ _
    simp [specRunTally]
  | cons l rest ih =>
    intro cnt hm hl
    have hcm : countMetas cnt l = (l.foldl countStep (cnt, none)).1 := rfl
    have hlen : (countMetas cnt l).length = cnt.length := by
      rw [hcm, countFold_length]
    rw [List.foldl_cons,
      ih (countMetas cnt l) (by rw [hlen]; exact hm)
        (by intro l2 h2 s h3; rw [hlen]; exact hl l2 (List.mem_cons_of_mem l h2) s h3),
      hcm, countFold_getD m l cnt none hm (hl l (List.mem_cons_self l rest))]
    unfold specRunTally runStartCount
    rw [List.map_cons, List.sum_cons]
    omega

/-- The 32-bit unsigned cutoff equals the plain arithmetic cutoff when the
subtraction does not wrap. -/
theorem countCut_eq (cfg : MyConst) (readSize : Nat)
    (hwrap : cfg.KMERLEN + cfg.KMERLEN * cfg.MISCOUNT ≤ readSize + 1)
    (hsz : readSize < 2 ^ 31) :
    countCut cfg readSize
      = readSize + 1 - cfg.KMERLEN - cfg.KMERLEN * cfg.MISCOUNT := by
  unfold countCut
  have hcast : ((cfg.KMERLEN : Int)) * cfg.MISCOUNT
      = ((cfg.KMERLEN * cfg.MISCOUNT : Nat) : Int) := by
    push_cast
    ring
  rw [hcast]
  omega

/-- Zipping the two projections of a pair list gives the list back. -/
theorem zip_proj_eq {α β : Type} (ps : List (α × β)) :
    (ps.map Prod.fst).zip (ps.map Prod.snd) = ps := by
  induction ps with
  | nil => rfl
  | cons p rest ih =>
    cases p
    simp [ih]

/-- The two lists produced by one masked-XOR filtering step have equal
length and their zip is a sublist of the zip of the inputs. -/
theorem filterOffset_aligned (cfg : MyConst) (ref : RefGenome) (bits : Nat)
    (lK : List KMER.kmer) (lS : List Bool) :
    ((filterOffset cfg ref bits lK lS).1).length
        = ((filterOffset cfg ref bits lK lS).2).length
    ∧ List.Sublist (((filterOffset cfg ref bits lK lS).1).zip
        ((filterOffset cfg ref bits lK lS).2)) (lK.zip lS) := by
  unfold filterOffset
  refine ⟨by simp, ?_⟩
  rw [zip_proj_eq]
  exact List.filter_sublist _

/-- The first component of bitMatching at an in-range offset. -/
theorem bitMatching_getD (cfg : MyConst) (ref : RefGenome) (r : Read)
    (seedsK : List (List KMER.kmer)) (seedsS : List (List Bool)) (t : Nat)
    (ht : t < seedsK.length) (hn : t < r.seq.length - cfg.KMERLEN + 1) :
    (bitMatching cfg ref r seedsK seedsS).1.getD t []
        = (filterOffset cfg ref (kmerBitsFwd cfg r.seq t)
            (seedsK.getD t []) (seedsS.getD t [])).1
    ∧ (bitMatching cfg ref r seedsK seedsS).2.getD t []
        = (filterOffset cfg ref (kmerBitsFwd cfg r.seq t)
            (seedsK.getD t []) (seedsS.getD t [])).2 := by
  unfold bitMatching
  constructor <;> simp [getD_map_range, ht, hn]

/-- The first component of bitMatchingRev at an offset the loop reaches. -/
theorem bitMatchingRev_getD (cfg : MyConst) (ref : RefGenome) (r : Read)
    (seedsK : List (List KMER.kmer)) (seedsS : List (List Bool)) (j : Nat)
    (hj : j < seedsK.length) (hn : j < r.seq.length - cfg.KMERLEN) :
    (bitMatchingRev cfg ref r seedsK seedsS).1.getD j []
        = (filterOffset cfg ref (kmerBitsRev cfg r.seq j)
            (seedsK.getD j []) (seedsS.getD j [])).1
    ∧ (bitMatchingRev cfg ref r seedsK seedsS).2.getD j []
        = (filterOffset cfg ref (kmerBitsRev cfg r.seq j)
            (seedsK.getD j []) (seedsS.getD j [])).2 := by
  unfold bitMatchingRev
  constructor <;> simp [getD_map_range, hj, hn]

/-- Offsets the bitMatchingRev loop never reaches are left as fresh empty
lists. -/
theorem bitMatchingRev_getD_empty (cfg : MyConst) (ref : RefGenome) (r : Read)
    (seedsK : List (List KMER.kmer)) (seedsS : List (List Bool)) (j : Nat)
    (hn : r.seq.length - cfg.KMERLEN ≤ j) :
    (bitMatchingRev cfg ref r seedsK seedsS).1.getD j [] = []
    ∧ (bitMatchingRev cfg ref r seedsK seedsS).2.getD j [] = [] := by
  unfold bitMatchingRev
  have hn2 : ¬(j < r.seq.length - cfg.KMERLEN) := by omega
  constructor <;> (rw [getD_map_range]; by_cases h : j < seedsK.length <;> simp [h, hn2])

/-- Adjacent meta-CpG ids agree exactly when the two CpGs are close: the
inductive adjacency invariant of the grouping scan. -/
theorem metaIdsAux_adj (rl : Nat) :
    ∀ (l : List CpG) (prev : CpG) (g i : Nat), i + 1 < l.length + 1 →
      ((g :: metaIdsAux rl prev g l).getD (i + 1) 0
          = (g :: metaIdsAux rl prev g l).getD i 0
        ↔ (((prev :: l).getD (i + 1) ⟨0, 0⟩).chrom
              = ((prev :: l).getD i ⟨0, 0⟩).chrom
            ∧ ((prev :: l).getD (i + 1) ⟨0, 0⟩).pos
                - ((prev :: l).getD i ⟨0, 0⟩).pos ≤ rl)) := by
  intro l
  induction l with
  | nil =>
    intro prev g i h
    exact absurd h (by simp)
  | cons c rest ih =>
    intro prev g i h
    have hstep : metaIdsAux rl prev g (c :: rest)
        = (if c.chrom = prev.chrom ∧ c.pos - prev.pos ≤ rl then
            g :: metaIdsAux rl c g rest
          else (g + 1) :: metaIdsAux rl c (g + 1) rest) := rfl
    cases i with
    | zero =>
      by_cases hc : c.chrom = prev.chrom ∧ c.pos - prev.pos ≤ rl
      · rw [hstep, if_pos hc]
        simp only [List.getD_cons_succ, List.getD_cons_zero]
        exact iff_of_true (by trivial) hc
      · rw [hstep, if_neg hc]
        simp only [List.getD_cons_succ, List.getD_cons_zero]
        exact iff_of_false (by omega) hc
    | succ j =>
      have hj : j + 1 < rest.length + 1 := by simpa using h
      by_cases hc : c.chrom = prev.chrom ∧ c.pos - prev.pos ≤ rl
      · rw [hstep, if_pos hc]
        simpa only [List.getD_cons_succ] using ih c g j hj
      · rw [hstep, if_neg hc]
        simpa only [List.getD_cons_succ] using ih c (g + 1) j hj

/-- C7 counterexample: with read length 150 and CpGs at positions 0, 100
and 200 of one chromosome, the first and the third CpG receive the same
meta-CpG id although their positions are more than one read length apart,
so the claim's biconditional grouping is false. -/
theorem generateMetaCpGs_grouping_cx :
    (metaGroupIds 150 ct7).getD 2 0 = (metaGroupIds 150 ct7).getD 0 0
    ∧ ¬((ct7.getD 2 ⟨0, 0⟩).pos - (ct7.getD 0 ⟨0, 0⟩).pos ≤ 150)
    ∧ (generateMetaCpGs 150 ct7).length = 1 := by
  decide

/-- C7 (amended): the grouping scan of generateMetaCpGs puts two
consecutive CpGs of the table into the same meta-CpG if and only if they
lie on the same chromosome with positions within one read length of each
other; membership of non-consecutive CpGs follows by chaining, not by
pairwise distance. -/
theorem generateMetaCpGs_grouping_adjacent (rl : Nat) (ct : List CpG) (i : Nat)
    (h : i + 1 < ct.length) :
    ((metaGroupIds rl ct).getD (i + 1) 0 = (metaGroupIds rl ct).getD i 0
      ↔ ((ct.getD (i + 1) ⟨0, 0⟩).chrom = (ct.getD i ⟨0, 0⟩).chrom
          ∧ (ct.getD (i + 1) ⟨0, 0⟩).pos - (ct.getD i ⟨0, 0⟩).pos ≤ rl)) := by
  cases ct with
  | nil => exact absurd h (by simp)
  | cons c rest =>
    have h2 : i + 1 < rest.length + 1 := by simpa using h
    exact metaIdsAux_adj rl rest c 0 i h2

/-- C7 witness: at the concrete table the amended adjacency criterion
evaluates as stated. -/
theorem generateMetaCpGs_grouping_adjacent_witness :
    (metaGroupIds 150 ct7).getD 1 0 = (metaGroupIds 150 ct7).getD 0 0
      ↔ ((ct7.getD 1 ⟨0, 0⟩).chrom = (ct7.getD 0 ⟨0, 0⟩).chrom
          ∧ (ct7.getD 1 ⟨0, 0⟩).pos - (ct7.getD 0 ⟨0, 0⟩).pos ≤ 150) :=
  generateMetaCpGs_grouping_adjacent 150 ct7 0 (by decide)

/-- C10: filterHeuSeeds zeroes the whole per-thread counter (sized to the
meta-CpG table) before counting, so its output does not depend on the
scratch counter contents left by whatever read was processed before on
whatever worker thread: two runs with the same inputs and any two prior
scratch states produce identical pruned seed lists. -/
theorem filterHeuSeeds_scratch_independent (cfg : MyConst) (ref : RefGenome)
    (scratch1 scratch2 : List Nat) (seedsK : List (List KMER.kmer))
    (seedsS : List (List Bool)) (readSize : Nat) :
    filterHeuSeedsScratch cfg ref scratch1 seedsK seedsS readSize
      = filterHeuSeedsScratch cfg ref scratch2 seedsK seedsS readSize := rfl

/-- C6: processing any batch of reads leaves the RefGenome state — in
particular tabIndex, kmerTable, strandTable, metaCpGs, metaStartCpGs,
cpgTable, cpgStartTable, genomeBit and filteredKmers — unchanged: the
matching pipeline only reads the shared index. -/
theorem matchReads_ref_frame (cfg : MyConst) (buffer : List Read)
    (st : MatchState) :
    (matchReadsSt cfg buffer st).ref = st.ref
    ∧ (matchReadsSt cfg buffer st).ref.tabIndex = st.ref.tabIndex
    ∧ (matchReadsSt cfg buffer st).ref.kmerTable = st.ref.kmerTable
    ∧ (matchReadsSt cfg buffer st).ref.strandTable = st.ref.strandTable
    ∧ (matchReadsSt cfg buffer st).ref.metaCpGs = st.ref.metaCpGs
    ∧ (matchReadsSt cfg buffer st).ref.metaStartCpGs = st.ref.metaStartCpGs
    ∧ (matchReadsSt cfg buffer st).ref.cpgTable = st.ref.cpgTable
    ∧ (matchReadsSt cfg buffer st).ref.cpgStartTable = st.ref.cpgStartTable
    ∧ (matchReadsSt cfg buffer st).ref.genomeBit = st.ref.genomeBit
    ∧ (matchReadsSt cfg buffer st).ref.filteredKmers = st.ref.filteredKmers := by
  have h : (matchReadsSt cfg buffer st).ref = st.ref := by
    induction buffer generalizing st with
    | nil => rfl
    | cons r rest ih =>
      show (matchReadsSt cfg rest (matchReadSt cfg r st)).ref = st.ref
      rw [ih (matchReadSt cfg r st)]
      rfl
  exact ⟨h, by rw [h], by rw [h], by rw [h], by rw [h], by rw [h], by rw [h],
    by rw [h], by rw [h], by rw [h]⟩

/-- C3: a read shorter than the k-mer length yields empty seed-list
collections for both orientations, and each read of a batch is processed
independently, so the degenerate read affects no other read's result. -/
theorem matchRead_short (cfg : MyConst) (ref : RefGenome) (r : Read)
    (h : r.seq.length < cfg.KMERLEN) :
    matchRead cfg ref r = (([], []), ([], []))
    ∧ ∀ (buffer : List Read) (i : Nat), i < buffer.length →
        (matchReads cfg ref buffer).getD i (([], []), ([], []))
          = matchRead cfg ref (buffer.getD i ⟨[]⟩) := by
  constructor
  · unfold matchRead
    rw [if_pos h]
  · intro buffer i hi
    unfold matchReads
    rw [List.getD_eq_getElem?_getD, List.getElem?_map,
      List.getElem?_eq_getElem hi, List.getD_eq_getElem?_getD,
      List.getElem?_eq_getElem hi]
    rfl

/-- C3 witness: the concrete two-base read yields the empty collections. -/
theorem matchRead_short_witness :
    matchRead cfgW refEmpty rShort = (([], []), ([], [])) :=
  (matchRead_short cfgW refEmpty rShort (by decide)).1

/-- C9 counterexample: a start-flagged seed that is valid for the
metaStartCpGs table (its index is within that table) fails the ordinary
bound getMetaCpG < metaCpGs.size() when the start table is larger, so the
counter access of filterHeuSeeds is out of bounds and the bounds-checked
variant rejects the input: the claim's universal in-bounds assertion is
false. -/
theorem filterHeuSeeds_bounds_cx :
    filterHeuSeedsChecked cfgW refC9 [[sigma9]] [[true]] 5 = none
    ∧ KMER.isStartCpG sigma9 = true
    ∧ KMER.getMetaCpG sigma9 < refC9.metaStartCpGs.length
    ∧ ¬(KMER.getMetaCpG sigma9 < refC9.metaCpGs.length) := by
  decide

/-- C9 (amended): the counter accesses of filterHeuSeeds are in bounds
exactly when every seed of the lists — the start flag being ignored when
selecting the bucket — has its meta id below metaCpGs.size(); a
start-flagged seed valid only against metaStartCpGs need not satisfy
this. -/
theorem filterHeuSeeds_bounds_amended (cfg : MyConst) (ref : RefGenome)
    (seedsK : List (List KMER.kmer)) (seedsS : List (List Bool))
    (readSize : Nat) :
    (filterHeuSeedsChecked cfg ref seedsK seedsS readSize).isSome
      ↔ ∀ l ∈ seedsK, ∀ s ∈ l, KMER.getMetaCpG s < ref.metaCpGs.length := by
  unfold filterHeuSeedsChecked
  by_cases h : ∀ l ∈ seedsK, ∀ s ∈ l, KMER.getMetaCpG s < ref.metaCpGs.length
  · simp [h]
  · simp [h]

/-- C4: bitMatchingRev is off by one against its specification: on the
read ACGTAC with k-mer length 4 its register after the first update is 178,
the bit pattern of the complements of bases 5, 4, 3 and 1 — base 2 is
skipped — while the reverse-complement encoding of the read's k-mer window
at the scanned offset is 177; moreover the loop performs only
length - KMERLEN = 2 iterations instead of covering all 3 windows, leaving
the last per-offset seed list unconditionally empty. -/
theorem bitMatchingRev_register_bug :
    kmerBitsRev cfgW rW.seq 0 = 178
    ∧ specRevKmerAt cfgW rW.seq 0 = 177
    ∧ rW.seq.length - cfgW.KMERLEN = 2
    ∧ rW.seq.length - cfgW.KMERLEN + 1 = 3
    ∧ (bitMatchingRev cfgW refC1 rW [[kapA], [kapA], [kapA]]
        [[true], [true], [true]]).1.getD 2 [] = [] := by
  decide

/-- C2 counterexample: with k-mer length 4, mismatch allowance 0 and read
size 5 the cutoff is 2; a per-offset list containing seeds of meta-CpG 0,
then meta-CpG 1, then meta-CpG 0 again makes the code count meta-CpG 0
twice for this single offset, so its seeds are retained although only one
distinct offset references it — the claim's distinct-offset tally
criterion is false. -/
theorem filterHeuSeeds_distinct_offset_cx :
    (filterHeuSeeds cfgW refC2 [[kapA, kapB, kapA], []]
        [[true, true, true], []] 5).1 = [[kapA, kapA], []]
    ∧ specDistinctOffsetTally [[kapA, kapB, kapA], []] (KMER.getMetaCpG kapA) = 1
    ∧ countCut cfgW 5 = 2 := by
  decide

/-- C2 (amended): filterHeuSeeds tallies, per meta-CpG, the number of
maximal runs of consecutive seeds of that meta-CpG over all per-offset
lists (a meta-CpG can be counted more than once per offset when its seeds
are not contiguous), and a seed is retained in every offset's list exactly
when this run tally reaches readSize - KMERLEN + 1 - KMERLEN * MISCOUNT;
in particular a meta-CpG whose run tally is one below the bound loses all
its seeds and one whose tally equals the bound keeps them. -/
theorem filterHeuSeeds_run_tally (cfg : MyConst) (ref : RefGenome)
    (seedsK : List (List KMER.kmer)) (seedsS : List (List Bool))
    (readSize : Nat)
    (hmeta : ∀ l ∈ seedsK, ∀ s ∈ l, KMER.getMetaCpG s < ref.metaCpGs.length)
    (hwrap : cfg.KMERLEN + cfg.KMERLEN * cfg.MISCOUNT ≤ readSize + 1)
    (hsz : readSize < 2 ^ 31) :
    filterHeuSeeds cfg ref seedsK seedsS readSize
      = specFilterHeu cfg seedsK seedsS readSize := by
  have hcut := countCut_eq cfg readSize hwrap hsz
  have htc : ∀ m, m < ref.metaCpGs.length →
      (threadCountOf ref [] seedsK).getD m 0 = specRunTally seedsK m := by
    intro m hm
    unfold threadCountOf assignVec
    rw [tallyFold_getD m seedsK (List.replicate ref.metaCpGs.length 0)
      (by simpa using hm)
      (by intro l hl s hs; simpa using hmeta l hl s hs)]
    simp
  have hfilter : ∀ (lK : List KMER.kmer) (lS : List Bool), lK ∈ seedsK →
      ((lK.zip lS).filter
        (fun p => countCut cfg readSize ≤
          (threadCountOf ref [] seedsK).getD (KMER.getMetaCpG p.1) 0))
      = ((lK.zip lS).filter
        (fun p => readSize + 1 - cfg.KMERLEN - cfg.KMERLEN * cfg.MISCOUNT ≤
          specRunTally seedsK (KMER.getMetaCpG p.1))) := by
    intro lK lS hlK
    apply List.filter_congr
    intro p hp
    obtain ⟨a, b⟩ := p
    have ha : a ∈ lK := (List.of_mem_zip hp).1
    have hma : KMER.getMetaCpG a < ref.metaCpGs.length := hmeta lK hlK a ha
    rw [hcut, htc _ hma]
  unfold filterHeuSeeds filterHeuSeedsScratch specFilterHeu
  refine congrArg₂ Prod.mk ?_ ?_ <;>
  · apply List.map_congr_left
    rintro ⟨lK, lS⟩ hpl
    have hlK : lK ∈ seedsK := (List.of_mem_zip hpl).1
    rw [hfilter lK lS hlK]

/-- C2 witness: the amended pruning criterion holds at the concrete seed
lists of the counterexample. -/
theorem filterHeuSeeds_run_tally_witness :
    filterHeuSeeds cfgW refC2 [[kapA, kapB, kapA], []]
        [[true, true, true], []] 5
      = specFilterHeu cfgW [[kapA, kapB, kapA], []]
        [[true, true, true], []] 5 :=
  filterHeuSeeds_run_tally cfgW refC2 [[kapA, kapB, kapA], []]
    [[true, true, true], []] 5 (by decide) (by decide) (by decide)

/-- C1 counterexample: on the read ACGTAC with k-mer length 4, a seed whose
reference bits are 178 survives bitMatchingRev at its first scanned offset
although the reference bits XORed with the masked reverse-complement
encoding of the read's k-mer window at that offset (177) are nonzero: the
surviving seeds of bitMatchingRev are not characterised by the claim's
masked comparison against the read's own packed k-mer. -/
theorem bitMatchingRev_masked_xor_cx :
    (bitMatchingRev cfgW refC1 rW [[kapA], [], []] [[true], [], []]).1
        = [[kapA], [], []]
    ∧ refKmerBitOf cfgW refC1 kapA true
        ^^^ (specRevKmerAt cfgW rW.seq 0
              &&& getMask cfgW (refKmerBitOf cfgW refC1 kapA true)) ≠ 0 := by
  decide

/-- C1 (amended): a seed survives bitMatching at an offset if and only if
the reference k-mer bits fetched at its decoded chromosome position in the
orientation of its strand flag, XORed with the read's 2-bit-packed k-mer at
that offset under the mask derived from the reference bits, are zero, and
every failing seed is removed; for bitMatchingRev the compared value is the
scan's maintained shift register (not the recomputed reverse-complement
window encoding), and the windows the loop never reaches are emptied; a
read k-mer differing from the reference window in any 2-bit code — in
particular by one non-bisulfite-explainable substitution — fails the
forward comparison. -/
theorem bitMatching_masked_xor (cfg : MyConst) (ref : RefGenome) (r : Read)
    (seedsK : List (List KMER.kmer)) (seedsS : List (List Bool))
    (hk : 1 ≤ cfg.KMERLEN) :
    (∀ t, t < seedsK.length → t + cfg.KMERLEN ≤ r.seq.length →
      (bitMatching cfg ref r seedsK seedsS).1.getD t []
          = (((seedsK.getD t []).zip (seedsS.getD t [])).filter
              (fun p => refKmerBitOf cfg ref p.1 p.2 ^^^
                (readKmerAt cfg r.seq t &&&
                  getMask cfg (refKmerBitOf cfg ref p.1 p.2)) == 0)).map Prod.fst
        ∧ (bitMatching cfg ref r seedsK seedsS).2.getD t []
          = (((seedsK.getD t []).zip (seedsS.getD t [])).filter
              (fun p => refKmerBitOf cfg ref p.1 p.2 ^^^
                (readKmerAt cfg r.seq t &&&
                  getMask cfg (refKmerBitOf cfg ref p.1 p.2)) == 0)).map Prod.snd)
    ∧ (∀ j, j < seedsK.length → j < r.seq.length - cfg.KMERLEN →
      (bitMatchingRev cfg ref r seedsK seedsS).1.getD j []
          = (((seedsK.getD j []).zip (seedsS.getD j [])).filter
              (seedPass cfg ref (kmerBitsRev cfg r.seq j))).map Prod.fst
        ∧ (bitMatchingRev cfg ref r seedsK seedsS).2.getD j []
          = (((seedsK.getD j []).zip (seedsS.getD j [])).filter
              (seedPass cfg ref (kmerBitsRev cfg r.seq j))).map Prod.snd)
    ∧ (∀ j, r.seq.length - cfg.KMERLEN ≤ j →
      (bitMatchingRev cfg ref r seedsK seedsS).1.getD j [] = []
        ∧ (bitMatchingRev cfg ref r seedsK seedsS).2.getD j [] = [])
    ∧ (∀ (t : Nat) (p : KMER.kmer × Bool) (rc : List Nat),
        packCodes rc = refKmerBitOf cfg ref p.1 p.2 →
        rc.length = cfg.KMERLEN → (∀ c ∈ rc, c < 4) →
        rc ≠ readWindowCodes cfg r.seq t →
        seedPass cfg ref (readKmerAt cfg r.seq t) p = false) := by
  refine ⟨?_, ?_, ?_, ?_⟩
  · intro t ht htw
    have hn : t < r.seq.length - cfg.KMERLEN + 1 := by omega
    have h := bitMatching_getD cfg ref r seedsK seedsS t ht hn
    have hreg := kmerBitsFwd_eq cfg r.seq hk t htw
    constructor
    · rw [h.1]
      unfold filterOffset
      rw [hreg]
      rfl
    · rw [h.2]
      unfold filterOffset
      rw [hreg]
      rfl
  · intro j hj hn
    have h := bitMatchingRev_getD cfg ref r seedsK seedsS j hj hn
    exact ⟨h.1, h.2⟩
  · intro j hn
    exact bitMatchingRev_getD_empty cfg ref r seedsK seedsS j hn
  · intro t p rc hpack hlen hlt hne
    unfold seedPass
    have hmask : readKmerAt cfg r.seq t
        &&& getMask cfg (refKmerBitOf cfg ref p.1 p.2)
        = readKmerAt cfg r.seq t := by
      show readKmerAt cfg r.seq t &&& signiBits cfg = readKmerAt cfg r.seq t
      unfold signiBits
      rw [Nat.and_pow_two_sub_one_eq_mod]
      exact Nat.mod_eq_of_lt (readKmerAt_lt cfg r.seq t)
    rw [hmask]
    rw [beq_eq_false_iff_ne]
    intro hxor
    have heq : refKmerBitOf cfg ref p.1 p.2 = readKmerAt cfg r.seq t :=
      Nat.xor_eq_zero.mp hxor
    apply hne
    apply packCodes_inj rc (readWindowCodes cfg r.seq t) hlt
      (readWindowCodes_lt cfg r.seq t)
      (by rw [hlen, readWindowCodes_length])
    rw [hpack, heq]
    rfl

/-- getD and get agree below the length. -/
theorem getD_eq_get {α : Type} (l : List α) (d : α) (i : Nat) (h : i < l.length) :
    l.getD i d = l.get ⟨i, h⟩ := by
  rw [List.getD_eq_getElem?_getD, List.getElem?_eq_getElem h]
  rfl

/-- getD of a map below the length. -/
theorem getD_map_get {α β : Type} (l : List α) (f : α → β) (d : β) (i : Nat)
    (h : i < l.length) :
    (l.map f).getD i d = f (l.get ⟨i, h⟩) := by
  rw [List.getD_eq_getElem?_getD, List.getElem?_map, List.getElem?_eq_getElem h]
  rfl

/-- getD of a map beyond the length is the default. -/
theorem getD_map_ge {α β : Type} (l : List α) (f : α → β) (d : β) (i : Nat)
    (h : l.length ≤ i) :
    (l.map f).getD i d = d := by
  rw [List.getD_eq_getElem?_getD, List.getElem?_eq_none (by simpa using h)]
  rfl

/-- An entry of a zip written through the getD of its two lists. -/
theorem zip_get_pair {α β : Type} (K : List α) (S : List β) (d1 : α) (d2 : β)
    (i : Nat) (h : i < (K.zip S).length) :
    (K.zip S).get ⟨i, h⟩ = (K.getD i d1, S.getD i d2) := by
  have h1 : i < K.length := by
    rw [List.length_zip] at h
    omega
  have h2 : i < S.length := by
    rw [List.length_zip] at h
    omega
  rw [List.get_eq_getElem, List.getElem_zip]
  rw [getD_eq_get K d1 i h1, getD_eq_get S d2 i h2]
  rfl

/-- Offsets outside the loop range of bitMatching stay empty. -/
theorem bitMatching_getD_empty (cfg : MyConst) (ref : RefGenome) (r : Read)
    (seedsK : List (List KMER.kmer)) (seedsS : List (List Bool)) (t : Nat)
    (hn : ¬(t < r.seq.length - cfg.KMERLEN + 1)) :
    (bitMatching cfg ref r seedsK seedsS).1.getD t [] = []
    ∧ (bitMatching cfg ref r seedsK seedsS).2.getD t [] = [] := by
  unfold bitMatching
  constructor <;>
    (rw [getD_map_range]; by_cases h : t < seedsK.length <;> simp [h, hn])

/-- Indices beyond the seed-list count give the default in bitMatching. -/
theorem bitMatching_getD_oob (cfg : MyConst) (ref : RefGenome) (r : Read)
    (seedsK : List (List KMER.kmer)) (seedsS : List (List Bool)) (t : Nat)
    (ht : seedsK.length ≤ t) :
    (bitMatching cfg ref r seedsK seedsS).1.getD t [] = []
    ∧ (bitMatching cfg ref r seedsK seedsS).2.getD t [] = [] := by
  unfold bitMatching
  have h2 : ¬(t < seedsK.length) := by omega
  constructor <;> (rw [getD_map_range]; simp [h2])

/-- Indices beyond the seed-list count give the default in
bitMatchingRev. -/
theorem bitMatchingRev_getD_oob (cfg : MyConst) (ref : RefGenome) (r : Read)
    (seedsK : List (List KMER.kmer)) (seedsS : List (List Bool)) (t : Nat)
    (ht : seedsK.length ≤ t) :
    (bitMatchingRev cfg ref r seedsK seedsS).1.getD t [] = []
    ∧ (bitMatchingRev cfg ref r seedsK seedsS).2.getD t [] = [] := by
  unfold bitMatchingRev
  have h2 : ¬(t < seedsK.length) := by omega
  constructor <;> (rw [getD_map_range]; simp [h2])

/-- C5: at every stage of the pipeline — after seeding, after
filterHeuSeeds, after bitMatching and after bitMatchingRev — the per-offset
candidate list and strand-flag list have equal length, and their entries
correspond index by index: the zip of the two output lists of an offset is
a sublist of the zip of that offset's input lists. -/
theorem seed_lists_aligned (cfg : MyConst) (ref : RefGenome) (s : List Base)
    (r : Read) (seedsK : List (List KMER.kmer)) (seedsS : List (List Bool))
    (readSize : Nat)
    (hKT : ref.kmerTable.length = ref.strandTable.length) :
    (∀ t, ((getSeeds cfg ref s).1.getD t []).length
        = ((getSeeds cfg ref s).2.getD t []).length)
    ∧ (∀ i,
        ((filterHeuSeeds cfg ref seedsK seedsS readSize).1.getD i []).length
          = ((filterHeuSeeds cfg ref seedsK seedsS readSize).2.getD i []).length
        ∧ List.Sublist
            (((filterHeuSeeds cfg ref seedsK seedsS readSize).1.getD i []).zip
              ((filterHeuSeeds cfg ref seedsK seedsS readSize).2.getD i []))
            ((seedsK.getD i []).zip (seedsS.getD i [])))
    ∧ (∀ t,
        ((bitMatching cfg ref r seedsK seedsS).1.getD t []).length
          = ((bitMatching cfg ref r seedsK seedsS).2.getD t []).length
        ∧ List.Sublist
            (((bitMatching cfg ref r seedsK seedsS).1.getD t []).zip
              ((bitMatching cfg ref r seedsK seedsS).2.getD t []))
            ((seedsK.getD t []).zip (seedsS.getD t [])))
    ∧ (∀ j,
        ((bitMatchingRev cfg ref r seedsK seedsS).1.getD j []).length
          = ((bitMatchingRev cfg ref r seedsK seedsS).2.getD j []).length
        ∧ List.Sublist
            (((bitMatchingRev cfg ref r seedsK seedsS).1.getD j []).zip
              ((bitMatchingRev cfg ref r seedsK seedsS).2.getD j []))
            ((seedsK.getD j []).zip (seedsS.getD j []))) := by
  refine ⟨?_, ?_, ?_, ?_⟩
  · intro t
    simp only [getSeeds, getD_map_range]
    by_cases h : t < s.length - cfg.KMERLEN + 1
    · simp only [if_pos h, sliceTab, List.length_drop, List.length_take]
      rw [hKT]
    · simp [h]
  · intro i
    unfold filterHeuSeeds filterHeuSeedsScratch
    by_cases h : i < (seedsK.zip seedsS).length
    · rw [getD_map_get _ _ _ i h, getD_map_get _ _ _ i h]
      constructor
      · simp
      · rw [zip_proj_eq, zip_get_pair seedsK seedsS [] [] i h]
        exact List.filter_sublist _
    · rw [getD_map_ge _ _ _ i (le_of_not_lt h),
        getD_map_ge _ _ _ i (le_of_not_lt h)]
      exact ⟨rfl, List.nil_sublist _⟩
  · intro t
    by_cases ht : t < seedsK.length
    · by_cases hn : t < r.seq.length - cfg.KMERLEN + 1
      · have h := bitMatching_getD cfg ref r seedsK seedsS t ht hn
        rw [h.1, h.2]
        exact filterOffset_aligned cfg ref _ _ _
      · have h := bitMatching_getD_empty cfg ref r seedsK seedsS t hn
        rw [h.1, h.2]
        exact ⟨rfl, List.nil_sublist _⟩
    · have h := bitMatching_getD_oob cfg ref r seedsK seedsS t (le_of_not_lt ht)
      rw [h.1, h.2]
      exact ⟨rfl, List.nil_sublist _⟩
  · intro j
    by_cases hj : j < seedsK.length
    · by_cases hn : j < r.seq.length - cfg.KMERLEN
      · have h := bitMatchingRev_getD cfg ref r seedsK seedsS j hj hn
        rw [h.1, h.2]
        exact filterOffset_aligned cfg ref _ _ _
      · have h := bitMatchingRev_getD_empty cfg ref r seedsK seedsS j
          (le_of_not_lt hn)
        rw [h.1, h.2]
        exact ⟨rfl, List.nil_sublist _⟩
    · have h := bitMatchingRev_getD_oob cfg ref r seedsK seedsS j
        (le_of_not_lt hj)
      rw [h.1, h.2]
      exact ⟨rfl, List.nil_sublist _⟩

/-- C5 witness: at concrete inputs the filterHeuSeeds stage yields
index-aligned lists of equal length. -/
theorem seed_lists_aligned_witness :
    ((filterHeuSeeds cfgW refC1 [[kapA]] [[true]] 5).1.getD 0 []).length
      = ((filterHeuSeeds cfgW refC1 [[kapA]] [[true]] 5).2.getD 0 []).length :=
  ((seed_lists_aligned cfgW refC1 [] rW [[kapA]] [[true]] 5 (by decide)).2.1 0).1

/-- Round trip of the Nat-list codec. -/
theorem decNats_enc (l rest : List Nat) :
    decNats (encNats l ++ rest) = some (l, rest) := by
  show (if l.length ≤ (l ++ rest).length then
      some ((l ++ rest).take l.length, (l ++ rest).drop l.length)
    else none) = some (l, rest)
  rw [if_pos (by simp), List.take_left, List.drop_left]

/-- Round trip of the CpG-row codec. -/
theorem decCpGsAux_enc (l : List CpG) :
    ∀ rest, decCpGsAux l.length
      ((l.flatMap (fun c => [c.chrom, c.pos])) ++ rest) = some (l, rest) := by
  induction l with
  | nil => intro rest; rfl
  | cons c cl ih =>
    intro rest
    show (decCpGsAux cl.length
        ((cl.flatMap (fun c => [c.chrom, c.pos])) ++ rest)).map
        (fun p => (⟨c.chrom, c.pos⟩ :: p.1, p.2)) = some (c :: cl, rest)
    rw [ih rest]
    rfl

/-- Round trip of the CpG-table codec. -/
theorem decCpGs_enc (l : List CpG) (rest : List Nat) :
    decCpGs (encCpGs l ++ rest) = some (l, rest) := by
  show decCpGsAux l.length ((l.flatMap (fun c => [c.chrom, c.pos])) ++ rest)
      = some (l, rest)
  exact decCpGsAux_enc l rest

/-- Round trip of the meta-CpG-table codec. -/
theorem decMetas_enc (l : List metaCpG) (rest : List Nat) :
    decMetas (encMetas l ++ rest) = some (l, rest) := by
  unfold decMetas encMetas
  rw [decNats_enc]
  show some ((l.map (fun m => m.start)).map (fun n => (⟨n⟩ : metaCpG)), rest)
      = some (l, rest)
  rw [List.map_map]
  have h : ((fun n => (⟨n⟩ : metaCpG)) ∘ (fun m : metaCpG => m.start)) = id :=
    funext fun m => rfl
  rw [h, List.map_id]

/-- Round trip of the k-mer-entry codec. -/
theorem decKmersAux_enc (l : List KMER.kmer) :
    ∀ rest, decKmersAux l.length
      ((l.flatMap (fun k =>
        [k.metaCpG, k.offset, if k.startFlag then 1 else 0])) ++ rest)
      = some (l, rest) := by
  induction l with
  | nil => intro rest; rfl
  | cons k kl ih =>
    intro rest
    obtain ⟨mc, off, sf⟩ := k
    cases sf <;>
      (show (decKmersAux kl.length
          ((kl.flatMap (fun k =>
            [k.metaCpG, k.offset, if k.startFlag then 1 else 0])) ++ rest)).map
          _ = _
       rw [ih rest]
       rfl)

/-- Round trip of the k-mer-table codec. -/
theorem decKmers_enc (l : List KMER.kmer) (rest : List Nat) :
    decKmers (encKmers l ++ rest) = some (l, rest) := by
  show decKmersAux l.length
      ((l.flatMap (fun k =>
        [k.metaCpG, k.offset, if k.startFlag then 1 else 0])) ++ rest)
      = some (l, rest)
  exact decKmersAux_enc l rest

/-- Round trip of the strand-table codec. -/
theorem decBools_enc (l : List Bool) (rest : List Nat) :
    decBools (encBools l ++ rest) = some (l, rest) := by
  unfold decBools encBools
  rw [decNats_enc]
  show some ((l.map (fun b => if b then 1 else 0)).map (fun n => decide (n = 1)),
      rest) = some (l, rest)
  rw [List.map_map]
  have h : ((fun n => decide (n = 1)) ∘ (fun b => if b then (1 : Nat) else 0))
      = id := funext fun b => by cases b <;> rfl
  rw [h, List.map_id]

/-- Round trip of the packed-genome-block codec. -/
theorem decNestedAux_enc (l : List (List Nat)) :
    ∀ rest, decNestedAux l.length ((l.flatMap encNats) ++ rest)
      = some (l, rest) := by
  induction l with
  | nil => intro rest; rfl
  | cons x xl ih =>
    intro rest
    simp only [List.flatMap_cons, List.length_cons, List.append_assoc]
    show (match decNats (encNats x ++ ((xl.flatMap encNats) ++ rest)) with
      | none => none
      | some (v, s2) =>
        (decNestedAux xl.length s2).map (fun p => (v :: p.1, p.2)))
      = some (x :: xl, rest)
    rw [decNats_enc]
    show (decNestedAux xl.length ((xl.flatMap encNats) ++ rest)).map
        (fun p => (x :: p.1, p.2)) = some (x :: xl, rest)
    rw [ih rest]
    rfl

/-- Round trip of the packed-genome codec. -/
theorem decNested_enc (l : List (List Nat)) (rest : List Nat) :
    decNested (encNested l ++ rest) = some (l, rest) := by
  show decNestedAux l.length ((l.flatMap encNats) ++ rest) = some (l, rest)
  exact decNestedAux_enc l rest

/-- Round trip of the chromosome-map-entry codec. -/
theorem decChrMapAux_enc (l : List (Nat × List Nat)) :
    ∀ rest, decChrMapAux l.length
      ((l.flatMap (fun p => p.1 :: encNats p.2)) ++ rest) = some (l, rest) := by
  induction l with
  | nil => intro rest; rfl
  | cons e el ih =>
    intro rest
    obtain ⟨a, x⟩ := e
    simp only [List.flatMap_cons, List.length_cons, List.cons_append,
      List.append_assoc]
    show (match decNats (encNats x ++ ((el.flatMap (fun p => p.1 :: encNats p.2)) ++ rest)) with
      | none => none
      | some (v, s2) =>
        (decChrMapAux el.length s2).map (fun p => ((a, v) :: p.1, p.2)))
      = some ((a, x) :: el, rest)
    rw [decNats_enc]
    show (decChrMapAux el.length
        ((el.flatMap (fun p => p.1 :: encNats p.2)) ++ rest)).map
        (fun p => ((a, x) :: p.1, p.2)) = some ((a, x) :: el, rest)
    rw [ih rest]
    rfl

/-- Round trip of the chromosome-map codec. -/
theorem decChrMap_enc (l : List (Nat × List Nat)) (rest : List Nat) :
    decChrMap (encChrMap l ++ rest) = some (l, rest) := by
  show decChrMapAux l.length ((l.flatMap (fun p => p.1 :: encNats p.2)) ++ rest)
      = some (l, rest)
  exact decChrMapAux_enc l rest

/-- Round trip of the chromosome-map codec on an exactly consumed stream. -/
theorem decChrMap_enc_nil (l : List (Nat × List Nat)) :
    decChrMap (encChrMap l) = some (l, []) := by
  rw [show encChrMap l = encChrMap l ++ [] from (List.append_nil _).symm,
    decChrMap_enc]

/-- C8: loading a saved index restores it exactly: load of save is the
identity on the whole RefGenome, in particular tabIndex, kmerTable,
strandTable and the filtered-kmer set are restored identically, for any
index. -/
theorem load_save_roundtrip (g : RefGenome) :
    load (save g) = some g
    ∧ (load (save g)).map RefGenome.tabIndex = some g.tabIndex
    ∧ (load (save g)).map RefGenome.kmerTable = some g.kmerTable
    ∧ (load (save g)).map RefGenome.strandTable = some g.strandTable
    ∧ (load (save g)).map RefGenome.filteredKmers = some g.filteredKmers := by
  have h : load (save g) = some g := by
    unfold save load
    simp only [List.append_assoc]
    simp only [decCpGs_enc, decMetas_enc, decNested_enc, decNats_enc,
      decKmers_enc, decBools_enc, decChrMap_enc, decChrMap_enc_nil]
  exact ⟨h, by rw [h]; rfl, by rw [h]; rfl, by rw [h]; rfl, by rw [h]; rfl⟩

/-- C1 witness: at the concrete inputs the forward characterisation yields
the concrete filtered list (the seed's reference bits 178 differ from the
read's packed k-mer 27 at offset 0, so it is removed). -/
theorem bitMatching_masked_xor_witness :
    (bitMatching cfgW refC1 rW [[kapA], [], []] [[true], [], []]).1.getD 0 []
      = [] := by
  have h := ((bitMatching_masked_xor cfgW refC1 rW [[kapA], [], []]
    [[true], [], []] (by decide)).1 0 (by decide) (by decide)).1
  rw [h]
  decide

end Metal
